import Mathlib

/-!
# Verification of the redex matcher framework and method-profile CSV ingestion

This file gives a shallow embedding of the predicate/matcher framework
(`m::match_t`, its boolean combinators, the instruction sequence matcher
`find_matches` / `find_insn_match`, the operand projections, and the
type-hierarchy predicate `is_assignable_to`) together with the peripheral
CSV ingestion routine `MethodProfiles::parse_stats_file`, and proves the
specified properties about them.

Conventions of the embedding:
* C++ `std::vector` becomes `List`; the caller-supplied output vector that the
  searches push into becomes an explicit accumulator argument.
* Pointers to IR entities (`DexMethodRef*`, `DexType*`, ...) become opaque
  values; where only identity matters they are modelled as `String`.
* Machine doubles are modelled as exact rationals (`ℚ`): every numeric literal
  appearing in the verified scenarios has a finite decimal expansion.
* `uint8_t` truncation is modelled as `% 256`.
* Fallible C++ code (assertion failures, `return false` error paths) returns
  `Except String _`, the `String` being the message written to the caller.
-/

namespace Redex

/-! ## Predicate core (`m::match_t` and combinators)

Source: the `match_t` wrapper and `operator!`, `operator&&`, `operator||`,
`operator^` overloads. -/

/-- `m::match_t<T, P>`: a wrapper over a boolean function on a borrowed `T`. -/
structure MatchT (T : Type) where
  fn : T → Bool

/-- `match_t::matches`. -/
def MatchT.matches {T : Type} (p : MatchT T) (t : T) : Bool := p.fn t

/-- `m::matcher`: wrap a boolean function into a `match_t`. -/
def matcher {T : Type} (fn : T → Bool) : MatchT T := ⟨fn⟩

/-- `operator!`: logical not of a subordinate match. -/
def mnot {T : Type} (p : MatchT T) : MatchT T :=
  matcher (fun t => !(p.matches t))

/-- `operator||`: logical or of two subordinate matches. -/
def mor {T : Type} (p q : MatchT T) : MatchT T :=
  matcher (fun t => p.matches t || q.matches t)

/-- `operator&&`: logical and of two subordinate matches. -/
def mand {T : Type} (p q : MatchT T) : MatchT T :=
  matcher (fun t => p.matches t && q.matches t)

/-- `operator^`: logical xor of two subordinate matches (`bool ^ bool`). -/
def mxor {T : Type} (p q : MatchT T) : MatchT T :=
  matcher (fun t => Bool.xor (p.matches t) (q.matches t))

/-! ## Sequence matcher (`insns_matcher`, `find_matches`, `find_insn_match`)

Instructions are abstracted to an arbitrary type `I`; the pattern (a C++
tuple of `N` matchers) becomes a `List (MatchT I)`. -/

/-- `insns_matcher<T, N>::matches_at`: check the pattern `p` position by
position starting at index `at`; the recursive template consumes one matcher
per step, moving to index `at + 1`.  (An out-of-range index, impossible in the
uses made by `find_matches`, counts as a failed position.) -/
def matchesAt {I : Type} (insns : List I) : Nat → List (MatchT I) → Bool
  | _, [] => true
  | i, q :: ps =>
    match insns[i]? with
    | some insn => q.matches insn && matchesAt insns (i + 1) ps
    | none => false

/-- `m::find_matches`: for every start offset `i` in `[0, L - N]` (only when
`N ≤ L`), if the pattern matches at `i`, append the window of `N` instructions
starting at `i` (the loop copies `insns.at(i + c)` for `c < N`, i.e. the slice
`(insns.drop i).take N`) to the output vector `acc`. -/
def find_matches {I : Type} (insns : List I) (p : List (MatchT I))
    (acc : List (List I)) : List (List I) :=
  if p.length ≤ insns.length then
    (List.range (insns.length - p.length + 1)).foldl
      (fun m i =>
        if matchesAt insns i p then m ++ [(insns.drop i).take p.length] else m)
      acc
  else acc

/-- `m::find_insn_match`: append every instruction matching `p` to the output
vector `acc`, scanning in input order. -/
def find_insn_match {I : Type} (insns : List I) (p : MatchT I)
    (acc : List I) : List I :=
  insns.foldl (fun m insn => if p.matches insn then m ++ [insn] else m) acc

/-- The property the spec ascribes to a window start `s`: every pattern
position `i` matches the instruction at offset `s + i`. -/
def windowMatches {I : Type} (insns : List I) (p : List (MatchT I))
    (s : Nat) : Prop :=
  ∀ i (hi : i < p.length) (hsi : s + i < insns.length),
    (p[i]).matches (insns[s + i]) = true

instance {I : Type} (insns : List I) (p : List (MatchT I)) (s : Nat) :
    Decidable (windowMatches insns p s) := by
  unfold windowMatches
  exact Nat.decidableBallLT _ _

end Redex

namespace Redex

/-! ### Lemmas about the sequence matcher -/

theorem getElem_congr_idx {α : Type} (l : List α) {i j : Nat}
    (hi : i < l.length) (hj : j < l.length) (h : i = j) : l[i] = l[j] := by
  subst h
  rfl

theorem foldl_pushIf {α β : Type} (f : α → Bool) (g : α → β) :
    ∀ (l : List α) (acc : List β),
      l.foldl (fun m i => if f i then m ++ [g i] else m) acc =
        acc ++ (l.filter f).map g := by
  intro l
  induction l with
  | nil => intro acc; simp
  | cons a l ih =>
    intro acc
    by_cases ha : f a
    · simp [List.foldl_cons, ha, ih]
    · simp [List.foldl_cons, ha, ih]

theorem matchesAt_iff_windowMatches {I : Type} (insns : List I) :
    ∀ (p : List (MatchT I)) (s : Nat), s + p.length ≤ insns.length →
      (matchesAt insns s p = true ↔ windowMatches insns p s) := by
  intro p
  induction p with
  | nil =>
    intro s _
    simp [matchesAt, windowMatches]
  | cons q ps ih =>
    intro s hs
    have hslt : s < insns.length := by
      simp only [List.length_cons] at hs; omega
    have hlen : (s + 1) + ps.length ≤ insns.length := by
      simp only [List.length_cons] at hs; omega
    have hget : insns[s]? = some insns[s] := List.getElem?_eq_getElem hslt
    have hstep : matchesAt insns s (q :: ps) =
        (q.matches insns[s] && matchesAt insns (s + 1) ps) := by
      simp only [matchesAt, hget]
    rw [hstep, Bool.and_eq_true, ih (s + 1) hlen]
    constructor
    · rintro ⟨hq, hwm⟩ i hi hsi
      match i with
      | 0 => simpa using hq
      | j + 1 =>
        have hj : j < ps.length := by simpa using hi
        have hsj : (s + 1) + j < insns.length := by omega
        have hrec := hwm j hj hsj
        have heq : insns[s + (j + 1)] = insns[(s + 1) + j] :=
          getElem_congr_idx insns hsi hsj (by omega)
        simpa [heq] using hrec
    · intro hwm
      refine ⟨?_, ?_⟩
      · have h0 := hwm 0 (by simp) (by omega)
        simpa using h0
      · intro j hj hsj
        have hj1 : j + 1 < (q :: ps).length := by simpa using Nat.succ_lt_succ hj
        have hsj1 : s + (j + 1) < insns.length := by omega
        have hrec := hwm (j + 1) hj1 hsj1
        have heq : insns[s + (j + 1)] = insns[(s + 1) + j] :=
          getElem_congr_idx insns hsj1 hsj (by omega)
        simpa [heq] using hrec

/-- **C1.** `find_matches` reports exactly the contiguous windows `[s, s + N)`
with `s ∈ [0, L - N]` at which every position predicate matches the
corresponding instruction: the result is the window slice of each qualifying
start, taken in ascending start order (the filtered enumeration of
`0, 1, ..., L - N`); when `L < N` the range is empty and so is the result. -/
theorem find_matches_windows {I : Type} (insns : List I) (p : List (MatchT I)) :
    find_matches insns p [] =
      ((List.range (insns.length + 1 - p.length)).filter
          (fun s => decide (windowMatches insns p s))).map
        (fun s => (insns.drop s).take p.length) := by
  by_cases h : p.length ≤ insns.length
  · have hrange : insns.length + 1 - p.length = insns.length - p.length + 1 := by
      omega
    rw [find_matches, if_pos h, foldl_pushIf, hrange, List.nil_append]
    congr 1
    apply List.filter_congr
    intro s hs
    have hsle : s + p.length ≤ insns.length := by
      have := List.mem_range.mp hs; omega
    have hiff := matchesAt_iff_windowMatches insns p s hsle
    by_cases hm : matchesAt insns s p = true
    · rw [hm, (decide_eq_true (hiff.mp hm)).symm]
    · have hw : ¬ windowMatches insns p s := fun hw => hm (hiff.mpr hw)
      have hmf : matchesAt insns s p = false := by
        revert hm; cases matchesAt insns s p <;> simp
      rw [hmf, decide_eq_false hw]
  · have hz : insns.length + 1 - p.length = 0 := by omega
    rw [find_matches, if_neg h, hz]
    simp

/-- **C5.** `find_insn_match` returns exactly the instructions satisfying `p`,
in input order (it equals `List.filter`); when the input holds pairwise
distinct instructions, each qualifying instruction appears at most once. -/
theorem find_insn_match_filter {I : Type} (insns : List I) (p : MatchT I)
    (hnd : insns.Nodup) :
    find_insn_match insns p [] = insns.filter (fun i => p.matches i) ∧
      (find_insn_match insns p []).Nodup := by
  have hf : find_insn_match insns p [] = insns.filter (fun i => p.matches i) := by
    rw [find_insn_match, foldl_pushIf, List.nil_append, List.map_id']
  exact ⟨hf, hf ▸ hnd.filter _⟩

/-- Witness for `find_insn_match_filter` at a concrete duplicate-free list. -/
theorem find_insn_match_filter_witness :
    find_insn_match [1, 2, 3, 4] (matcher (fun n => n % 2 == 0)) [] =
        List.filter (fun i => (matcher (fun n => n % 2 == 0)).matches i)
          [1, 2, 3, 4] ∧
      (find_insn_match [1, 2, 3, 4] (matcher (fun n => n % 2 == 0)) []).Nodup :=
  find_insn_match_filter [1, 2, 3, 4] (matcher (fun n => n % 2 == 0))
    (by decide)

/-- **C10.** Both searches only append to the caller-supplied output vector:
the prior contents are left unchanged as a prefix, followed by exactly the
matches that a search with an empty output vector would produce.  (The input
instruction list is a value in this embedding, mirroring that the C++ takes it
by `const` reference and never writes through it.) -/
theorem search_appends_only {I : Type} (insns : List I) (p : List (MatchT I))
    (q : MatchT I) (acc : List (List I)) (acc' : List I) :
    find_matches insns p acc = acc ++ find_matches insns p [] ∧
      find_insn_match insns q acc' = acc' ++ find_insn_match insns q [] := by
  constructor
  · by_cases h : p.length ≤ insns.length
    · rw [find_matches, find_matches, if_pos h, if_pos h,
        foldl_pushIf, foldl_pushIf, List.nil_append]
    · rw [find_matches, find_matches, if_neg h, if_neg h, List.append_nil]
  · rw [find_insn_match, find_insn_match, foldl_pushIf, foldl_pushIf,
      List.nil_append]

/-- **C2.** The boolean combinators have exactly the pointwise boolean
semantics: `operator!` is negation, `operator&&` conjunction, `operator||`
disjunction, and `operator^` is boolean inequality (xor). -/
theorem combinator_semantics {T : Type} (p q : MatchT T) (t : T) :
    (mnot p).matches t = (!(p.matches t)) ∧
      (mand p q).matches t = (p.matches t && q.matches t) ∧
      (mor p q).matches t = (p.matches t || q.matches t) ∧
      (mxor p q).matches t = (p.matches t != q.matches t) := by
  refine ⟨rfl, rfl, rfl, ?_⟩
  show Bool.xor (p.matches t) (q.matches t) = (p.matches t != q.matches t)
  cases hp : p.matches t <;> cases hq : q.matches t <;> rfl

/-! ## Instruction operand projections and fail-closed lifts

Source: `opcode_method`, `opcode_field`, `opcode_type`, `opcode_string`
(`insn->has_X() && p.matches(insn->get_X())`), `as_class`
(`type_class(t)` lookup, `cls && p.matches(cls)`) and
`can_be_default_constructor` (`meth->as_def()`, `def && is_default_constructor(def)`).

An `IRInstruction` is modelled by its optional operand references (`has_X()`
is `isSome`, and `get_X()` is only consulted under that guard, which the
`Option` match captures); method/field/type/string references are opaque
identifiers. -/

/-- The operand references an `IRInstruction` may carry. -/
structure IRInstruction where
  method : Option String
  field : Option String
  type : Option String
  string : Option String

/-- A `DexMethodRef`, which may or may not resolve to a concrete definition
(`as_def()`); the definition is an opaque method identifier. -/
structure DexMethodRef where
  as_def : Option String

/-- `m::opcode_method`: `insn->has_method() && p.matches(insn->get_method())`. -/
def opcode_method (p : MatchT String) : MatchT IRInstruction :=
  matcher (fun insn =>
    match insn.method with
    | some mr => p.matches mr
    | none => false)

/-- `m::opcode_field`: `insn->has_field() && p.matches(insn->get_field())`. -/
def opcode_field (p : MatchT String) : MatchT IRInstruction :=
  matcher (fun insn =>
    match insn.field with
    | some fr => p.matches fr
    | none => false)

/-- `m::opcode_type`: `insn->has_type() && p.matches(insn->get_type())`. -/
def opcode_type (p : MatchT String) : MatchT IRInstruction :=
  matcher (fun insn =>
    match insn.type with
    | some tr => p.matches tr
    | none => false)

/-- `m::opcode_string`: `insn->has_string() && p.matches(insn->get_string())`. -/
def opcode_string (p : MatchT String) : MatchT IRInstruction :=
  matcher (fun insn =>
    match insn.string with
    | some sr => p.matches sr
    | none => false)

/-- `m::as_class` over an external `type_class` resolution function `tc`
(parameterised: `type_class` lives outside this translation unit):
`cls = type_class(t); return cls && p.matches(cls)`. -/
def as_class {C : Type} (tc : String → Option C) (p : MatchT C) :
    MatchT String :=
  matcher (fun t =>
    match tc t with
    | some cls => p.matches cls
    | none => false)

/-- `m::can_be_default_constructor` over the oracle `idc` standing for
`detail::is_default_constructor` (declared in the header, defined outside
this translation unit): `def = meth->as_def(); return def && idc(def)`. -/
def can_be_default_constructor (idc : String → Bool) : MatchT DexMethodRef :=
  matcher (fun meth =>
    match meth.as_def with
    | some d => idc d
    | none => false)

/-- **C4.** Every resolve-or-fail-closed operation evaluates to `false`
(no match) whenever the underlying lookup fails, for *every* inner
sub-predicate (so the inner predicate is never consulted), and never raises
an error (each operation is a total function in this embedding). -/
theorem projections_fail_closed {C : Type}
    (pm pf pt ps : MatchT String) (pc : MatchT C)
    (idc : String → Bool) (tc : String → Option C)
    (insn : IRInstruction) (t : String) (mref : DexMethodRef) :
    (insn.method = none → (opcode_method pm).matches insn = false) ∧
      (insn.field = none → (opcode_field pf).matches insn = false) ∧
      (insn.type = none → (opcode_type pt).matches insn = false) ∧
      (insn.string = none → (opcode_string ps).matches insn = false) ∧
      (tc t = none → (as_class tc pc).matches t = false) ∧
      (mref.as_def = none →
        (can_be_default_constructor idc).matches mref = false) := by
  refine ⟨?_, ?_, ?_, ?_, ?_, ?_⟩ <;> intro h <;>
    simp [opcode_method, opcode_field, opcode_type, opcode_string, as_class,
      can_be_default_constructor, matcher, MatchT.matches, h]

/-- Witness for `projections_fail_closed`: an instruction with no operands,
an unresolvable type, and a definition-less method reference, all against the
always-true inner predicate, evaluate to `false`. -/
theorem projections_fail_closed_witness :
    (opcode_method (matcher (fun _ => true))).matches
        ⟨none, none, none, none⟩ = false ∧
      (opcode_field (matcher (fun _ => true))).matches
        ⟨none, none, none, none⟩ = false ∧
      (opcode_type (matcher (fun _ => true))).matches
        ⟨none, none, none, none⟩ = false ∧
      (opcode_string (matcher (fun _ => true))).matches
        ⟨none, none, none, none⟩ = false ∧
      (as_class (fun _ => (none : Option Unit))
          (matcher (fun _ => true))).matches "LX;" = false ∧
      (can_be_default_constructor (fun _ => true)).matches ⟨none⟩ = false := by
  have h := projections_fail_closed (matcher (fun _ => true))
    (matcher (fun _ => true)) (matcher (fun _ => true))
    (matcher (fun _ => true)) (matcher (fun (_ : Unit) => true))
    (fun _ => true) (fun _ => none) ⟨none, none, none, none⟩ "LX;" ⟨none⟩
  exact ⟨h.1 rfl, h.2.1 rfl, h.2.2.1 rfl, h.2.2.2.1 rfl,
    h.2.2.2.2.1 rfl, h.2.2.2.2.2 rfl⟩

/-! ## Type-hierarchy predicate (`is_assignable_to`)

`detail::is_assignable_to` is only declared in the header under `src/`; its
body lives elsewhere in the repository, so the walk itself is modelled from
the spec (section 4.3): start at the candidate, compare each visited type to
the target, continue to the superclass and into each declared interface,
keep a visited set of types already expanded so that diamond hierarchies
terminate, and treat unresolvable ancestors as dead ends. -/

/-- A resolvable class definition: optional superclass (hierarchy roots have
none) plus directly implemented/extended interfaces. -/
structure DexClass where
  superclass : Option String
  interfaces : List String
deriving DecidableEq

/-- The external class hierarchy: a finite mapping from type name to its
definition.  A name with no entry is unresolvable. -/
abbrev Hierarchy := List (String × DexClass)

/-- The direct ancestors a class declaration contributes: the superclass
(when present) followed by the declared interfaces. -/
def parentsOf (c : DexClass) : List String :=
  c.superclass.toList ++ c.interfaces

/-- Every type name mentioned in the hierarchy (an entry's key or one of its
parents); the finite universe from which the visited set draws. -/
def hierNames (h : Hierarchy) : Finset String :=
  h.foldr (fun nc acc => insert nc.1 (acc ∪ (parentsOf nc.2).toFinset)) ∅

theorem mem_hierNames_cons (x a : String) (b : DexClass) (t : Hierarchy) :
    x ∈ hierNames ((a, b) :: t) ↔
      x = a ∨ x ∈ hierNames t ∨ x ∈ parentsOf b := by
  simp [hierNames]

theorem lookup_mem_hierNames (c : String) (cls : DexClass) :
    ∀ (h : Hierarchy), List.lookup c h = some cls →
      c ∈ hierNames h ∧ ∀ p ∈ parentsOf cls, p ∈ hierNames h := by
  intro h
  induction h with
  | nil => intro hl; simp [List.lookup] at hl
  | cons ab t ih =>
    obtain ⟨a, b⟩ := ab
    intro hl
    rw [List.lookup] at hl
    by_cases hca : c = a
    · rw [beq_iff_eq.mpr hca] at hl
      obtain rfl : b = cls := by simpa using hl
      refine ⟨?_, ?_⟩
      · exact (mem_hierNames_cons c a b t).mpr (Or.inl hca)
      · intro p hp
        exact (mem_hierNames_cons p a b t).mpr (Or.inr (Or.inr hp))
    · rw [show (c == a) = false from beq_eq_false_iff_ne.mpr hca] at hl
      have hl' : List.lookup c t = some cls := hl
      obtain ⟨h1, h2⟩ := ih hl'
      refine ⟨?_, ?_⟩
      · exact (mem_hierNames_cons c a b t).mpr (Or.inr (Or.inl h1))
      · intro p hp
        exact (mem_hierNames_cons p a b t).mpr (Or.inr (Or.inl (h2 p hp)))

theorem sdiff_insert_card_lt {s v : Finset String} {c : String}
    (hcs : c ∈ s) (hcv : c ∉ v) :
    (s \ insert c v).card < (s \ v).card := by
  apply Finset.card_lt_card
  rw [Finset.ssubset_iff_of_subset
    (Finset.sdiff_subset_sdiff (Finset.Subset.refl s) (Finset.subset_insert c v))]
  exact ⟨c, Finset.mem_sdiff.mpr ⟨hcs, hcv⟩,
    fun hmem => (Finset.mem_sdiff.mp hmem).2 (Finset.mem_insert_self c v)⟩

theorem sdiff_insert_card_eq {s v : Finset String} {c : String}
    (hcs : c ∉ s) :
    (s \ insert c v).card = (s \ v).card := by
  congr 1
  rw [Finset.sdiff_insert, Finset.erase_eq_of_not_mem]
  intro hmem
  exact hcs (Finset.mem_sdiff.mp hmem).1

/-- Modelled from the spec: the hierarchy walk behind
`detail::is_assignable_to`.  A worklist of types still to visit is processed
against a visited set: a visited type equal to the target succeeds; a type
already expanded is skipped; an unresolvable type is a dead end; a resolvable
type enqueues its superclass and interfaces.  The walk fails when the
worklist is exhausted. -/
def assignSearch (h : Hierarchy) (t : String) :
    List String → Finset String → Bool
  | [], _ => false
  | c :: work, v =>
    if c = t then true
    else if hv : c ∈ v then assignSearch h t work v
    else
      match hl : List.lookup c h with
      | none => assignSearch h t work (insert c v)
      | some cls => assignSearch h t (parentsOf cls ++ work) (insert c v)
termination_by work v => ((hierNames h \ v).card, work.length)
decreasing_by
  · exact Prod.Lex.right _ (Nat.lt_succ_self _)
  · by_cases hcs : c ∈ hierNames h
    · exact Prod.Lex.left _ _ (sdiff_insert_card_lt hcs hv)
    · rw [sdiff_insert_card_eq hcs]
      exact Prod.Lex.right _ (Nat.lt_succ_self _)
  · exact Prod.Lex.left _ _
      (sdiff_insert_card_lt (lookup_mem_hierNames c cls h hl).1 hv)

/-- `detail::is_assignable_to(child, parent)`, as modelled from the spec:
run the hierarchy walk from the candidate `child` searching for `parent`. -/
def detail_is_assignable_to (h : Hierarchy) (child parent : String) : Bool :=
  assignSearch h parent [child] ∅

/-- `m::is_assignable_to(parent)`: the predicate over candidate types. -/
def is_assignable_to (h : Hierarchy) (parent : String) : MatchT String :=
  matcher (fun child => detail_is_assignable_to h child parent)

/-- The declarative subtyping relation the spec describes: a type derives
from the target when it is the target, or when its resolvable definition has
a direct ancestor (superclass or interface) that transitively derives from
the target. -/
inductive Derives (h : Hierarchy) : String → String → Prop
  | refl (c : String) : Derives h c c
  | step {c p t : String} {cls : DexClass} :
      List.lookup c h = some cls → p ∈ parentsOf cls →
      Derives h p t → Derives h c t

/-- Explicit derivation paths: `IsPath h t c l` holds when following the
successive ancestors listed in `l`, starting from `c`, ends exactly at `t`. -/
def IsPath (h : Hierarchy) (t : String) : String → List String → Prop
  | c, [] => c = t
  | c, p :: l =>
    ∃ cls, List.lookup c h = some cls ∧ p ∈ parentsOf cls ∧ IsPath h t p l

theorem assignSearch_nil (h : Hierarchy) (t : String) (v : Finset String) :
    assignSearch h t [] v = false := by
  simp [assignSearch]

theorem assignSearch_head_eq (h : Hierarchy) (t : String) (v : Finset String)
    (work : List String) :
    assignSearch h t (t :: work) v = true := by
  rw [assignSearch, if_pos rfl]

theorem assignSearch_visited (h : Hierarchy) (t c : String)
    (v : Finset String) (work : List String) (hct : ¬ c = t) (hv : c ∈ v) :
    assignSearch h t (c :: work) v = assignSearch h t work v := by
  rw [assignSearch, if_neg hct, dif_pos hv]

theorem assignSearch_unresolved (h : Hierarchy) (t c : String)
    (v : Finset String) (work : List String) (hct : ¬ c = t) (hv : c ∉ v)
    (hl : List.lookup c h = none) :
    assignSearch h t (c :: work) v = assignSearch h t work (insert c v) := by
  rw [assignSearch, if_neg hct, dif_neg hv]
  split
  next heq => rfl
  next cls heq => rw [hl] at heq; cases heq

theorem assignSearch_resolved (h : Hierarchy) (t c : String)
    (v : Finset String) (work : List String) (cls : DexClass)
    (hct : ¬ c = t) (hv : c ∉ v) (hl : List.lookup c h = some cls) :
    assignSearch h t (c :: work) v =
      assignSearch h t (parentsOf cls ++ work) (insert c v) := by
  rw [assignSearch, if_neg hct, dif_neg hv]
  split
  next heq => rw [hl] at heq; cases heq
  next cls' heq => rw [hl] at heq; cases heq; rfl

theorem derives_iff_path (h : Hierarchy) (t c : String) :
    Derives h c t ↔ ∃ l, IsPath h t c l := by
  constructor
  · intro hd
    induction hd with
    | refl a => exact ⟨[], rfl⟩
    | @step a p b cls hlk hp hd ih =>
      obtain ⟨l, hpath⟩ := ih
      exact ⟨p :: l, cls, hlk, hp, hpath⟩
  · rintro ⟨l, hpath⟩
    induction l generalizing c with
    | nil =>
      have hct : c = t := hpath
      subst hct
      exact Derives.refl _
    | cons p l ih =>
      obtain ⟨cls, hlk, hp, hrest⟩ := hpath
      exact Derives.step hlk hp (ih p hrest)

theorem path_mem_lookup (h : Hierarchy) (t : String) :
    ∀ (l : List String) (c x : String), IsPath h t c l → x ∈ c :: l →
      x ≠ t → ∃ cls, List.lookup x h = some cls := by
  intro l
  induction l with
  | nil =>
    intro c x hpath hx hxt
    cases hpath
    rcases List.mem_singleton.mp hx with rfl
    exact absurd rfl hxt
  | cons p l ih =>
    intro c x hpath hx hxt
    obtain ⟨cls, hlk, hp, hrest⟩ := hpath
    rcases List.mem_cons.mp hx with rfl | hx'
    · exact ⟨cls, hlk⟩
    · exact ih p x hrest hx' hxt

theorem path_cut (h : Hierarchy) (t : String) :
    ∀ (l : List String) (c x : String), IsPath h t c l → x ∈ c :: l →
      ∃ l₂, IsPath h t x l₂ ∧ (x :: l₂).Sublist (c :: l) := by
  intro l
  induction l with
  | nil =>
    intro c x hpath hx
    rcases List.mem_singleton.mp hx with rfl
    exact ⟨[], hpath, List.Sublist.refl _⟩
  | cons p l ih =>
    intro c x hpath hx
    rcases List.mem_cons.mp hx with rfl | hx'
    · exact ⟨p :: l, hpath, List.Sublist.refl _⟩
    · obtain ⟨cls, hlk, hp, hrest⟩ := hpath
      obtain ⟨l₂, hpath₂, hsub⟩ := ih p x hrest hx'
      exact ⟨l₂, hpath₂, hsub.cons c⟩

theorem path_nodup (h : Hierarchy) (t : String) :
    ∀ (l : List String) (c : String), IsPath h t c l →
      ∃ l', IsPath h t c l' ∧ (c :: l').Nodup := by
  intro l
  induction l with
  | nil =>
    intro c hpath
    exact ⟨[], hpath, List.nodup_singleton c⟩
  | cons p l ih =>
    intro c hpath
    obtain ⟨cls, hlk, hp, hrest⟩ := hpath
    obtain ⟨l', hpath', hnd'⟩ := ih p hrest
    by_cases hc : c ∈ p :: l'
    · obtain ⟨l₂, hpath₂, hsub⟩ := path_cut h t l' p c hpath' hc
      exact ⟨l₂, hpath₂, hnd'.sublist hsub⟩
    · exact ⟨p :: l', ⟨cls, hlk, hp, hpath'⟩, List.nodup_cons.mpr ⟨hc, hnd'⟩⟩

theorem assignSearch_sound (h : Hierarchy) (t : String) :
    ∀ (work : List String) (v : Finset String),
      assignSearch h t work v = true → ∃ c ∈ work, Derives h c t := by
  intro work v
  induction work, v using assignSearch.induct h t with
  | case1 v =>
    intro hfalse
    rw [assignSearch_nil] at hfalse
    cases hfalse
  | case2 work v =>
    intro _
    exact ⟨t, List.mem_cons_self t work, Derives.refl t⟩
  | case3 c work v hct hv ih =>
    intro htrue
    rw [assignSearch_visited h t c v work hct hv] at htrue
    obtain ⟨c', hc', hd⟩ := ih htrue
    exact ⟨c', List.mem_cons_of_mem c hc', hd⟩
  | case4 c work v hct hv hl ih =>
    intro htrue
    rw [assignSearch_unresolved h t c v work hct hv hl] at htrue
    obtain ⟨c', hc', hd⟩ := ih htrue
    exact ⟨c', List.mem_cons_of_mem c hc', hd⟩
  | case5 c work v hct hv cls hl ih =>
    intro htrue
    rw [assignSearch_resolved h t c v work cls hct hv hl] at htrue
    obtain ⟨c', hc', hd⟩ := ih htrue
    rcases List.mem_append.mp hc' with hpar | hwork
    · exact ⟨c, List.mem_cons_self c work, Derives.step hl hpar hd⟩
    · exact ⟨c', List.mem_cons_of_mem c hwork, hd⟩

theorem assignSearch_complete (h : Hierarchy) (t : String) :
    ∀ (work : List String) (v : Finset String) (c : String) (l : List String),
      c ∈ work → IsPath h t c l → (c :: l).Nodup →
      (∀ x ∈ c :: l, x ≠ t → x ∉ v) →
      assignSearch h t work v = true := by
  intro work v
  induction work, v using assignSearch.induct h t with
  | case1 v =>
    intro c l hc
    exact absurd hc (List.not_mem_nil c)
  | case2 work v =>
    intro c l _ _ _ _
    rw [assignSearch_head_eq]
  | case3 c₀ work v hct hv ih =>
    intro c l hc hpath hnd havoid
    rw [assignSearch_visited h t c₀ v work hct hv]
    rcases List.mem_cons.mp hc with rfl | hc'
    · -- the witness is the popped node, but it is already in `v`:
      -- a path start distinct from `t` must avoid `v`, contradiction
      have hcv : c ∉ v := havoid c (List.mem_cons_self c l) hct
      exact absurd hv hcv
    · exact ih c l hc' hpath hnd havoid
  | case4 c₀ work v hct hv hl ih =>
    intro c l hc hpath hnd havoid
    rw [assignSearch_unresolved h t c₀ v work hct hv hl]
    -- the popped node is unresolvable, so it cannot lie on any path
    have hnot : c₀ ∉ c :: l := by
      intro hmem
      obtain ⟨cls, hcls⟩ := path_mem_lookup h t l c c₀ hpath hmem hct
      rw [hl] at hcls
      cases hcls
    rcases List.mem_cons.mp hc with rfl | hc'
    · exact absurd (List.mem_cons_self c l) hnot
    · apply ih c l hc' hpath hnd
      intro x hx hxt
      rw [Finset.mem_insert]
      push_neg
      exact ⟨fun hxc => hnot (hxc ▸ hx), havoid x hx hxt⟩
  | case5 c₀ work v hct hv cls hl ih =>
    intro c l hc hpath hnd havoid
    rw [assignSearch_resolved h t c₀ v work cls hct hv hl]
    by_cases hmem : c₀ ∈ c :: l
    · -- the path passes through the popped node: cut it there and continue
      -- from its first listed ancestor
      obtain ⟨l₂, hpath₂, hsub⟩ := path_cut h t l c c₀ hpath hmem
      have hnd₂ : (c₀ :: l₂).Nodup := hnd.sublist hsub
      match l₂, hpath₂ with
      | [], hpath₂ => exact absurd hpath₂ hct
      | p :: l₃, hpath₂ =>
        obtain ⟨cls', hlk', hp', hrest'⟩ := hpath₂
        obtain rfl : cls' = cls := by
          rw [hl] at hlk'; exact (Option.some_injective _ hlk').symm
        apply ih p l₃ (List.mem_append.mpr (Or.inl hp')) hrest'
          (List.nodup_cons.mp hnd₂).2
        intro x hx hxt
        rw [Finset.mem_insert]
        push_neg
        refine ⟨?_, ?_⟩
        · intro hxc
          exact (List.nodup_cons.mp hnd₂).1 (hxc ▸ hx)
        · exact havoid x (hsub.mem (List.mem_cons_of_mem c₀ hx)) hxt
    · -- the path never meets the popped node
      rcases List.mem_cons.mp hc with rfl | hc'
      · exact absurd (List.mem_cons_self c l) hmem
      · apply ih c l (List.mem_append.mpr (Or.inr hc')) hpath hnd
        intro x hx hxt
        rw [Finset.mem_insert]
        push_neg
        exact ⟨fun hxc => hmem (hxc ▸ hx), havoid x hx hxt⟩

/-- **C3.** `is_assignable_to(parent)` is a total boolean predicate (the walk
is a terminating function by construction, unresolvable ancestors included),
and it matches a candidate exactly when the candidate is the target or
transitively derives from it through superclasses and declared interfaces —
in particular it rejects every unrelated type. -/
theorem is_assignable_to_iff_derives (h : Hierarchy) (parent child : String) :
    (is_assignable_to h parent).matches child = true ↔ Derives h child parent := by
  constructor
  · intro htrue
    obtain ⟨c, hc, hd⟩ := assignSearch_sound h parent [child] ∅ htrue
    rcases List.mem_singleton.mp hc with rfl
    exact hd
  · intro hd
    obtain ⟨l, hpath⟩ := (derives_iff_path h parent child).mp hd
    obtain ⟨l', hpath', hnd'⟩ := path_nodup h parent l child hpath
    exact assignSearch_complete h parent [child] ∅ child l'
      (List.mem_singleton_self child) hpath' hnd'
      (fun x _ _ => Finset.not_mem_empty x)

/-! ## Method-profile CSV ingestion (`MethodProfiles.cpp`)

Files are modelled already split into lines and the lines into their
comma-separated cells (`parse_cells`, declared in the header outside `src/`,
is modelled from the spec as feeding each cell with its zero-based column
index to the per-cell callback, stopping at the first failure).  The column
constants `INDEX, NAME, APPEAR100, APPEAR_NUMBER, AVG_CALL, AVG_ORDER,
AVG_RANK100, MIN_API_LEVEL` (declared in the header) are `0..7` in the fixed
header order the spec gives.  `always_assert_log` (outside `src/`) is
modelled from the spec: a failed assertion aborts the ingestion call and
reports its formatted message to the caller, here as `Except.error`.
Method resolution (`DexMethod::get_method`) is a parameter `env`; resolved
references are opaque identifiers.  Doubles are exact rationals. -/

deriving instance DecidableEq for Except

/-- One row of per-method statistics (`MethodProfiles::Stats`). -/
structure Stats where
  appear_percent : ℚ
  call_count : ℚ
  order_percent : ℚ
  min_api_level : Nat
deriving DecidableEq

/-- A freshly default-initialised `Stats` record. -/
def Stats.init : Stats := ⟨0, 0, 0, 0⟩

def Stats.withAppear (s : Stats) (v : ℚ) : Stats :=
  ⟨v, s.call_count, s.order_percent, s.min_api_level⟩

def Stats.withCall (s : Stats) (v : ℚ) : Stats :=
  ⟨s.appear_percent, v, s.order_percent, s.min_api_level⟩

def Stats.withOrder (s : Stats) (v : ℚ) : Stats :=
  ⟨s.appear_percent, s.call_count, v, s.min_api_level⟩

def Stats.withApi (s : Stats) (v : Nat) : Stats :=
  ⟨s.appear_percent, s.call_count, s.order_percent, v⟩

/-- `m_method_stats`: mapping from resolved method reference to stats. -/
abbrev StatsMap := List (String × Stats)

/-- `std::unordered_map::emplace`: inserts only when the key is absent. -/
def emplace (m : StatsMap) (k : String) (s : Stats) : StatsMap :=
  match List.lookup k m with
  | some _ => m
  | none => m ++ [(k, s)]

/-- The longest digit prefix of a character list, and the rest. -/
def splitDigits : List Char → List Char × List Char
  | [] => ([], [])
  | c :: rest =>
    if c.isDigit then
      let dr := splitDigits rest
      (c :: dr.1, dr.2)
    else ([], c :: rest)

/-- Value of a decimal digit list (most significant first). -/
def digitsVal (ds : List Char) : Nat :=
  ds.foldl (fun a c => 10 * a + (c.toNat - 48)) 0

/-- Modelled from the spec: `strtoul(tok, &rest, 10)` (libc, outside `src/`)
on the plain decimal tokens in scope — consume the longest digit prefix
(value `0` and nothing consumed when there is none) and report the rest. -/
def strtoul10 (cs : List Char) : Nat × List Char :=
  let dr := splitDigits cs
  (digitsVal dr.1, dr.2)

/-- Modelled from the spec: `strtod(tok, &rest)` (libc, outside `src/`) on
the plain decimal literals in scope — digits with an optional fractional
part; when no digit is consumed there is no conversion and the rest is the
whole token. -/
def strtodSimple (cs : List Char) : ℚ × List Char :=
  let d1 := splitDigits cs
  match d1.2 with
  | '.' :: r2 =>
    let d2 := splitDigits r2
    if d1.1 = [] ∧ d2.1 = [] then (0, cs)
    else
      ((digitsVal d1.1 : ℚ) + (digitsVal d2.1 : ℚ) / (10 : ℚ) ^ d2.1.length,
        d2.2)
  | _ =>
    if d1.1 = [] then (0, cs) else ((digitsVal d1.1 : ℚ), d1.2)

/-- `parse_byte` in `MethodProfiles::parse_line`: `strtoul` into a `uint8_t`
(the cast truncates modulo 256); asserts that something was consumed
(`rest != tok`) and that at most a single trailing newline remains. -/
def parse_byte (tok : String) : Except String Nat :=
  if (strtoul10 tok.data).2 = tok.data then
    Except.error ("can't parse " ++ tok ++ " into a uint8_t")
  else if (strtoul10 tok.data).2 = [] ∨ (strtoul10 tok.data).2 = ['\n'] then
    Except.ok ((strtoul10 tok.data).1 % 256)
  else Except.error ("can't parse " ++ tok ++ " into a uint8_t")

/-- `parse_double` in `MethodProfiles::parse_line`: `strtod`, asserting that
something was consumed and at most a single trailing newline remains. -/
def parse_double (tok : String) : Except String ℚ :=
  if (strtodSimple tok.data).2 = tok.data then
    Except.error ("can't parse " ++ tok ++ " into a double")
  else if (strtodSimple tok.data).2 = [] ∨ (strtodSimple tok.data).2 = ['\n'] then
    Except.ok (strtodSimple tok.data).1
  else Except.error ("can't parse " ++ tok ++ " into a double")

/-- The per-cell callback of `MethodProfiles::parse_line`, acting on the
row state (the resolved method reference so far and the stats being built):
column 0 (`INDEX`) and the unnormalised columns 3 (`APPEAR_NUMBER`) and
5 (`AVG_ORDER`) are skipped; column 1 (`NAME`) resolves the method; columns
2, 4, 6 parse doubles into `appear_percent`, `call_count`, `order_percent`;
column 7 parses the byte `min_api_level`; further columns fail. -/
def parse_cell (env : String → Option String) (acc : Option String × Stats)
    (tok : String) (i : Nat) : Except String (Option String × Stats) :=
  match i with
  | 0 => Except.ok acc
  | 1 => Except.ok (env tok, acc.2)
  | 2 =>
    match parse_double tok with
    | Except.ok v => Except.ok (acc.1, acc.2.withAppear v)
    | Except.error e => Except.error e
  | 3 => Except.ok acc
  | 4 =>
    match parse_double tok with
    | Except.ok v => Except.ok (acc.1, acc.2.withCall v)
    | Except.error e => Except.error e
  | 5 => Except.ok acc
  | 6 =>
    match parse_double tok with
    | Except.ok v => Except.ok (acc.1, acc.2.withOrder v)
    | Except.error e => Except.error e
  | 7 =>
    match parse_byte tok with
    | Except.ok v => Except.ok (acc.1, acc.2.withApi v)
    | Except.error e => Except.error e
  | _ => Except.error "FAILED to parse line. Too many columns"

/-- Modelled from the spec: `parse_cells` (header, outside `src/`) feeds
each cell of the line, with its zero-based column index, to the callback,
threading the state and stopping at the first failure. -/
def parse_cells {σ : Type} (f : σ → String → Nat → Except String σ) :
    List String → Nat → σ → Except String σ
  | [], _, s => Except.ok s
  | tok :: rest, i, s =>
    match f s tok i with
    | Except.ok s' => parse_cells f rest (i + 1) s'
    | Except.error e => Except.error e

/-- The fixed header the spec demands, column by column (`check_cell`
expectations in `MethodProfiles::parse_header`). -/
def expected_header_cell (i : Nat) : String :=
  match i with
  | 0 => "index"
  | 1 => "name"
  | 2 => "appear100"
  | 3 => "appear#"
  | 4 => "avg_call"
  | 5 => "avg_order"
  | 6 => "avg_rank100"
  | 7 => "min_api_level"
  | _ => "\n"

/-- `check_cell` in `MethodProfiles::parse_header`: exact comparison against
the expected column title, reporting a mismatch. -/
def check_cell (expected tok : String) (i : Nat) : Except String Unit :=
  if tok = expected then Except.ok ()
  else
    Except.error ("Unexpected Header (column " ++ toString i ++ "): " ++ tok ++
      " != " ++ expected)

/-- `MethodProfiles::parse_header`. -/
def parse_header (line : List String) : Except String Unit :=
  parse_cells (fun _ tok i => check_cell (expected_header_cell i) tok i)
    line 0 ()

/-- `MethodProfiles::parse_line`: the first line goes to the header check;
a data line runs the per-cell parser and then, only when the name column
resolved, emplaces the stats under the resolved reference. -/
def parse_line (env : String → Option String) (m : StatsMap)
    (line : List String) (isFirst : Bool) : Except String StatsMap :=
  if isFirst then
    match parse_header line with
    | Except.ok _ => Except.ok m
    | Except.error e => Except.error e
  else
    match parse_cells (parse_cell env) line 0 (none, Stats.init) with
    | Except.error e => Except.error e
    | Except.ok rs =>
      match rs.1 with
      | some ref => Except.ok (emplace m ref rs.2)
      | none => Except.ok m

/-- The `getline` loop of `MethodProfiles::parse_stats_file`: feed each line
to `parse_line` (the first as header), stopping at the first failure; the
stats recorded so far persist in the member map either way. -/
def parse_lines (env : String → Option String) (m : StatsMap)
    (isFirst : Bool) : List (List String) → Except String Unit × StatsMap
  | [] => (Except.ok (), m)
  | l :: ls =>
    match parse_line env m l isFirst with
    | Except.error e => (Except.error e, m)
    | Except.ok m' => parse_lines env m' false ls

/-- `MethodProfiles::parse_stats_file`.  The file argument is the outcome of
`fopen`+`getline`: either the OS error description on open failure, or the
list of lines, each pre-split into cells.  Returns the outcome reported to
the caller and the final contents of `m_method_stats` (initially empty). -/
def parse_stats_file (env : String → Option String) (csv_filename : String)
    (file : Except String (List (List String))) :
    Except String Unit × StatsMap :=
  if csv_filename = "" then (Except.error "No csv file given", [])
  else
    match file with
    | Except.error os =>
      (Except.error ("FAILED to open " ++ csv_filename ++ ": " ++ os), [])
    | Except.ok lines => parse_lines env [] true lines

/-! ### Theorems about CSV ingestion -/

/-- **C8.** Ingesting the header given by the spec followed by the single
data row `0,LfooV;.bar:()V,12.5,100,3.2,5,50.0,21`, with the name resolving
(here to the reference `"bar"`), yields exactly one stats entry with
`appear_percent = 12.5` (column 3), `call_count = 3.2` (column 5),
`order_percent = 50.0` (column 7) and `min_api_level = 21` (column 8). -/
theorem csv_ingestion_example :
    parse_stats_file
        (fun s => if s = "LfooV;.bar:()V" then some "bar" else none)
        "stats.csv"
        (Except.ok
          [["index", "name", "appear100", "appear#", "avg_call", "avg_order",
             "avg_rank100", "min_api_level"],
           ["0", "LfooV;.bar:()V", "12.5", "100", "3.2", "5", "50.0", "21"]]) =
      (Except.ok (), [("bar", ⟨25/2, 16/5, 50, 21⟩)]) := by
  have h : parse_stats_file
      (fun s => if s = "LfooV;.bar:()V" then some "bar" else none)
      "stats.csv"
      (Except.ok
        [["index", "name", "appear100", "appear#", "avg_call", "avg_order",
           "avg_rank100", "min_api_level"],
         ["0", "LfooV;.bar:()V", "12.5", "100", "3.2", "5", "50.0", "21"]]) =
      (Except.ok (),
        [("bar",
          ⟨((12 : ℕ) : ℚ) + ((5 : ℕ) : ℚ) / (10 : ℚ) ^ (1 : ℕ),
            ((3 : ℕ) : ℚ) + ((2 : ℕ) : ℚ) / (10 : ℚ) ^ (1 : ℕ),
            ((50 : ℕ) : ℚ) + ((0 : ℕ) : ℚ) / (10 : ℚ) ^ (1 : ℕ), 21⟩)]) := by
    rfl
  have e1 : ((12 : ℕ) : ℚ) + ((5 : ℕ) : ℚ) / (10 : ℚ) ^ (1 : ℕ) = 25/2 := by
    norm_num
  have e2 : ((3 : ℕ) : ℚ) + ((2 : ℕ) : ℚ) / (10 : ℚ) ^ (1 : ℕ) = 16/5 := by
    norm_num
  have e3 : ((50 : ℕ) : ℚ) + ((0 : ℕ) : ℚ) / (10 : ℚ) ^ (1 : ℕ) = 50 := by
    norm_num
  rw [h, e1, e2, e3]

/-- The digit-splitter consumes an all-digit list entirely. -/
theorem splitDigits_all (ds : List Char) (h : ∀ c ∈ ds, c.isDigit = true) :
    splitDigits ds = (ds, []) := by
  induction ds with
  | nil => rfl
  | cons c rest ih =>
    have hc : c.isDigit = true := h c (List.mem_cons_self c rest)
    have hrest : splitDigits rest = (rest, []) :=
      ih (fun x hx => h x (List.mem_cons_of_mem c hx))
    simp [splitDigits, hc, hrest]

/-- **C9.** For any nonempty all-digit `min_api_level` cell, `parse_byte`
succeeds (so ingestion does not abort) with the cell's numeric value reduced
modulo 256 — the `uint8_t` cast of the `strtoul` result — and whenever that
value exceeds 255 the recorded number differs from the value written in the
file. -/
theorem parse_byte_wraps_mod256 (ds : List Char) (hne : ds ≠ [])
    (hdig : ∀ c ∈ ds, c.isDigit = true) :
    parse_byte (String.mk ds) = Except.ok (digitsVal ds % 256) ∧
      (255 < digitsVal ds → digitsVal ds % 256 ≠ digitsVal ds) := by
  have hsp : splitDigits ds = (ds, []) := splitDigits_all ds hdig
  constructor
  · have hdata : (String.mk ds).data = ds := rfl
    rw [parse_byte, hdata]
    rw [strtoul10, hsp]
    rw [if_neg (fun hh : ([] : List Char) = ds => hne hh.symm)]
    rw [if_pos (Or.inl rfl)]
  · intro h255
    have hlt : digitsVal ds % 256 < 256 := Nat.mod_lt _ (by omega)
    omega

/-- Witness for `parse_byte_wraps_mod256`: the cell `300` is accepted and
recorded as `44`, which differs from `300`. -/
theorem parse_byte_wraps_mod256_witness :
    parse_byte "300" = Except.ok 44 ∧ (255 < 300 → (44 : ℕ) ≠ 300) := by
  have h := parse_byte_wraps_mod256 ['3', '0', '0'] (by decide) (by decide)
  exact ⟨h.1, fun _ => h.2 (by decide)⟩

/-- The per-cell parser touches the resolved-reference component only at
column 1 (`NAME`). -/
theorem parse_cell_keeps_ref (env : String → Option String)
    (acc : Option String × Stats) (tok : String) (i : Nat) (hi : 2 ≤ i)
    (acc' : Option String × Stats)
    (h : parse_cell env acc tok i = Except.ok acc') : acc'.1 = acc.1 := by
  match i, hi with
  | 2, _ =>
    rw [parse_cell] at h
    cases hpd : parse_double tok with
    | ok v => rw [hpd] at h; cases h; rfl
    | error e => rw [hpd] at h; cases h
  | 3, _ => rw [parse_cell] at h; cases h; rfl
  | 4, _ =>
    rw [parse_cell] at h
    cases hpd : parse_double tok with
    | ok v => rw [hpd] at h; cases h; rfl
    | error e => rw [hpd] at h; cases h
  | 5, _ => rw [parse_cell] at h; cases h; rfl
  | 6, _ =>
    rw [parse_cell] at h
    cases hpd : parse_double tok with
    | ok v => rw [hpd] at h; cases h; rfl
    | error e => rw [hpd] at h; cases h
  | 7, _ =>
    rw [parse_cell] at h
    cases hpd : parse_byte tok with
    | ok v => rw [hpd] at h; cases h; rfl
    | error e => rw [hpd] at h; cases h
  | n + 8, _ =>
    rw [parse_cell] at h
    · cases h
    all_goals omega

/-- From column 2 on, a successful cell run leaves the resolved reference as
it was. -/
theorem parse_cells_ref_stable (env : String → Option String) :
    ∀ (toks : List String) (i : Nat) (acc : Option String × Stats)
      (res : Option String × Stats), 2 ≤ i →
      parse_cells (parse_cell env) toks i acc = Except.ok res →
      res.1 = acc.1 := by
  intro toks
  induction toks with
  | nil =>
    intro i acc res _ h
    rw [parse_cells] at h
    cases h
    rfl
  | cons tok rest ih =>
    intro i acc res hi h
    rw [parse_cells] at h
    cases hpc : parse_cell env acc tok i with
    | ok acc' =>
      rw [hpc] at h
      have h1 := parse_cell_keeps_ref env acc tok i hi acc' hpc
      have h2 := ih (i + 1) acc' res (by omega) h
      rw [h2, h1]
    | error e => rw [hpc] at h; cases h

/-- **C7.** A data row whose name column does not resolve is silently
dropped: when the data-line parser succeeds, the stats map is returned
unchanged (no entry is created, no error raised), and ingestion simply
continues with the remaining lines against the same map. -/
theorem unresolved_name_row_dropped (env : String → Option String)
    (m m' : StatsMap) (row : List String) (nm : String)
    (ls : List (List String))
    (h1 : row[1]? = some nm) (h2 : env nm = none)
    (h3 : parse_line env m row false = Except.ok m') :
    m' = m ∧
      parse_lines env m false (row :: ls) = parse_lines env m' false ls := by
  have hm : m' = m := by
    match row, h1 with
    | t0 :: t1 :: rest, h1 =>
      have ht1 : t1 = nm := by simpa using h1
      subst ht1
      rw [parse_line] at h3
      rw [if_neg (by simp)] at h3
      cases hpc : parse_cells (parse_cell env) (t0 :: t1 :: rest) 0
          (none, Stats.init) with
      | error e => rw [hpc] at h3; cases h3
      | ok rs =>
        have hpc2 : parse_cells (parse_cell env) rest 2
            (env t1, Stats.init) = Except.ok rs := hpc
        rw [h2] at hpc2
        have href : rs.1 = none :=
          parse_cells_ref_stable env rest 2 (none, Stats.init) rs
            (by omega) hpc2
        obtain ⟨r1, st⟩ := rs
        obtain rfl : r1 = none := href
        rw [hpc] at h3
        exact (Except.ok.inj h3).symm
  refine ⟨hm, ?_⟩
  rw [parse_lines, h3]

/-- Witness for `unresolved_name_row_dropped`: a row naming an unresolvable
method leaves the map unchanged, and a concrete two-row file still records
the later well-formed row. -/
theorem unresolved_name_row_dropped_witness :
    (([] : StatsMap) = []) ∧
      (parse_lines (fun s => if s = "LdefV;.n:()V" then some "good" else none)
          [] false
          [["0", "LabcV;.m:()V", "1", "1", "1", "1", "1", "21"],
           ["1", "LdefV;.n:()V", "2", "2", "2", "2", "2", "21"]] =
        parse_lines (fun s => if s = "LdefV;.n:()V" then some "good" else none)
          [] false
          [["1", "LdefV;.n:()V", "2", "2", "2", "2", "2", "21"]]) ∧
      parse_stats_file
          (fun s => if s = "LdefV;.n:()V" then some "good" else none)
          "f.csv"
          (Except.ok
            [["index", "name", "appear100", "appear#", "avg_call", "avg_order",
               "avg_rank100", "min_api_level"],
             ["0", "LabcV;.m:()V", "1", "1", "1", "1", "1", "21"],
             ["1", "LdefV;.n:()V", "2", "2", "2", "2", "2", "21"]]) =
        (Except.ok (), [("good", ⟨2, 2, 2, 21⟩)]) := by
  have h := unresolved_name_row_dropped
    (fun s => if s = "LdefV;.n:()V" then some "good" else none) [] []
    ["0", "LabcV;.m:()V", "1", "1", "1", "1", "1", "21"] "LabcV;.m:()V"
    [["1", "LdefV;.n:()V", "2", "2", "2", "2", "2", "21"]]
    (by decide) (by decide) (by decide)
  exact ⟨h.1, h.2, by decide⟩

/-- **C6 (amended).** Ingestion failure modes: a file-open failure aborts
with no entries recorded and is reported with the source file path and the
OS error description; a header mismatch aborts with no entries recorded and
reports the mismatching column; a malformed numeric cell aborts ingestion at
the offending row — the error names the offending cell, the entries recorded
from earlier rows remain in the map, and the remaining rows are not
processed. -/
theorem ingestion_failure_modes (env : String → Option String)
    (path os e e' : String) (lines ls : List (List String))
    (hd l : List String) (m : StatsMap) (hpath : path ≠ "") :
    (parse_stats_file env path (Except.error os) =
        (Except.error ("FAILED to open " ++ path ++ ": " ++ os), [])) ∧
      (parse_header hd = Except.error e →
        parse_stats_file env path (Except.ok (hd :: lines)) =
          (Except.error e, [])) ∧
      (parse_line env m l false = Except.error e' →
        parse_lines env m false (l :: ls) = (Except.error e', m)) := by
  refine ⟨?_, ?_, ?_⟩
  · rw [parse_stats_file, if_neg hpath]
  · intro hh
    rw [parse_stats_file, if_neg hpath]
    have hline : parse_line env [] hd true = Except.error e := by
      rw [parse_line, if_pos rfl, hh]
    show parse_lines env [] true (hd :: lines) = (Except.error e, [])
    rw [parse_lines, hline]
  · intro hh
    rw [parse_lines, hh]

/-- Witness for `ingestion_failure_modes` at concrete inputs: a missing
file, a misspelled first header column, and a data row whose third cell is
not numeric. -/
theorem ingestion_failure_modes_witness :
    (parse_stats_file (fun _ => none) "p.csv"
        (Except.error "No such file or directory") =
      (Except.error "FAILED to open p.csv: No such file or directory", [])) ∧
      (parse_stats_file (fun _ => none) "p.csv"
          (Except.ok [["idx", "name"], ["0", "La;.m:()V", "1"]]) =
        (Except.error "Unexpected Header (column 0): idx != index", [])) ∧
      (parse_lines (fun _ => none) [("a", Stats.init)] false
          [["0", "LbV;.m:()V", "x"], ["1", "LcV;.m:()V", "1"]] =
        (Except.error "can't parse x into a double", [("a", Stats.init)])) := by
  have h := ingestion_failure_modes (fun _ => none) "p.csv"
    "No such file or directory"
    "Unexpected Header (column 0): idx != index"
    "can't parse x into a double"
    [["0", "La;.m:()V", "1"]] [["1", "LcV;.m:()V", "1"]]
    ["idx", "name"] ["0", "LbV;.m:()V", "x"] [("a", Stats.init)]
    (by decide)
  exact ⟨h.1, h.2.1 (by decide), h.2.2 (by decide)⟩

/-- **C6, counterexample to the claim as stated.** A malformed numeric cell
in the second data row aborts ingestion, but the method-stats mapping is
*not* empty — it retains the entry from the first, well-formed row — and the
reported failure is exactly the cell message, which contains neither the
source file path (`profile.csv`) nor any OS-level error description. -/
theorem ingestion_retains_rows_cex :
    parse_stats_file
        (fun s => if s = "LfooV;.bar:()V" then some "bar" else none)
        "profile.csv"
        (Except.ok
          [["index", "name", "appear100", "appear#", "avg_call", "avg_order",
             "avg_rank100", "min_api_level"],
           ["0", "LfooV;.bar:()V", "1", "100", "2", "5", "3", "21"],
           ["1", "LfooV;.baz:()V", "12x", "100", "2", "5", "3", "21"]]) =
      (Except.error "can't parse 12x into a double",
        [("bar", ⟨1, 2, 3, 21⟩)]) ∧
      ([("bar", (⟨1, 2, 3, 21⟩ : Stats))] : StatsMap) ≠ [] ∧
      "can't parse 12x into a double" ≠
        "FAILED to open profile.csv: No such file or directory" := by
  refine ⟨by decide, by decide, by decide⟩

end Redex
